import Mathlib

/-!
# Verification of the AI-Image-Resizer repository

Shallow embedding of the two implementations of the spec-derivation and
size-fitting algorithm:

* the server path: `parseRuleText`, the preset table, `processImage`
  (backend index.js, served from src/unnamed/part_001), and
* the client path: `parseCustomRule`, `PRESETS`, `processClientSide`
  (src/frontend/src/App.jsx).

JavaScript numbers are modelled as rationals (every arithmetic operation the
code performs — division by 1024, the decimal step constants, `toFixed(2)`
rounding — is exact on the values involved, so ℚ is a faithful model).
The image encoders (sharp's jpeg/png encoder, canvas `toBlob`) are abstracted
as a function `enc : ℚ → ℕ` from the quality parameter to the encoded byte
length; everything else is translated statement by statement from the source.
-/

/-- A parsed rule set / target spec, as produced by both rule parsers and the
preset tables: `{width, height, minKb, maxKb, format}`. -/
structure Rules where
  width : ℕ
  height : ℕ
  minKb : ℕ
  maxKb : ℕ
  format : String
deriving Repr, DecidableEq

/-! ## Regex matching helpers

The JS code uses five regexes.  They are embedded as explicit backtracking
matchers over `List Char` with JS semantics: leftmost match position wins,
greedy quantifiers with backtracking, ordered alternation, `.` does not match
a newline, `/i` folds ASCII case. -/

/-- JS `\s` on the inputs in question (ASCII whitespace). -/
def isSpaceJS (c : Char) : Bool :=
  c = ' ' || c = '\t' || c = '\n' || c = '\r' || c = '\x0b' || c = '\x0c'

/-- JS `[:\s]` character class. -/
def isColonSpace (c : Char) : Bool := c = ':' || isSpaceJS c

/-- JS word character `[A-Za-z0-9_]`, for the `\b` boundary. -/
def isWordChar (c : Char) : Bool := c.isAlphanum || c = '_'

/-- `parseInt` on a matched digit run. -/
def digitsVal (l : List Char) : ℕ :=
  l.foldl (fun n c => 10 * n + (c.toNat - 48)) 0

/-- Case-insensitive literal: match pattern `p` (given lowercase) at the head
of the input, returning the rest. -/
def matchCI : List Char → List Char → Option (List Char)
  | [], l => some l
  | _ :: _, [] => none
  | p :: ps, c :: cs => if c.toLower = p then matchCI ps cs else none

/-- Greedy `cls*` with backtracking, continuation style: consume as many
`cls` characters as possible, retrying shorter runs if `k` fails. -/
def starGreedy {R : Type} (cls : Char → Bool) : List Char → (List Char → Option R) → Option R
  | [], k => k []
  | c :: cs, k =>
    if cls c then
      match starGreedy cls cs k with
      | some r => some r
      | none => k (c :: cs)
    else k (c :: cs)

/-- Greedy `cls+` with capture and backtracking: `k` receives the captured
run and the rest of the input. -/
def manyCapAux {R : Type} (cls : Char → Bool) (acc : List Char) :
    List Char → (List Char → List Char → Option R) → Option R
  | [], k => k acc.reverse []
  | c :: cs, k =>
    if cls c then
      match manyCapAux cls (c :: acc) cs k with
      | some r => some r
      | none => k acc.reverse (c :: cs)
    else k acc.reverse (c :: cs)

/-- Greedy `(cls+)` (at least one character) with capture and backtracking. -/
def plusCap {R : Type} (cls : Char → Bool) (l : List Char)
    (k : List Char → List Char → Option R) : Option R :=
  match l with
  | [] => none
  | c :: cs => if cls c then manyCapAux cls [c] cs k else none

/-- Greedy `.*` (not matching a newline) with backtracking: longest tail
first. -/
def dotStarGreedyK {R : Type} : List Char → (List Char → Option R) → Option R
  | [], k => k []
  | c :: cs, k =>
    if c = '\n' then k (c :: cs)
    else
      match dotStarGreedyK cs k with
      | some r => some r
      | none => k (c :: cs)

/-- Lazy `.*?` (not matching a newline): shortest consumption first. -/
def dotStarLazyK {R : Type} : List Char → (List Char → Option R) → Option R
  | [], k => k []
  | c :: cs, k =>
    match k (c :: cs) with
    | some r => some r
    | none => if c = '\n' then none else dotStarLazyK cs k

/-- Leftmost-match search: try the pattern at position 0, 1, 2, …, as a JS
`String.prototype.match` does. -/
def scanMatch {R : Type} (p : List Char → Option R) : List Char → Option R
  | [] => p []
  | c :: cs =>
    match p (c :: cs) with
    | some r => some r
    | none => scanMatch p cs

/-! ### The five rule regexes -/

/-- `/(\d+)\s*x\s*(\d+)/i` anchored at the current position. -/
def dims1At (l : List Char) : Option (ℕ × ℕ) :=
  plusCap Char.isDigit l fun d1 r1 =>
    starGreedy isSpaceJS r1 fun r2 =>
      match r2 with
      | [] => none
      | c :: r3 =>
        if c.toLower = 'x' then
          starGreedy isSpaceJS r3 fun r4 =>
            plusCap Char.isDigit r4 fun d2 _ =>
              some (digitsVal d1, digitsVal d2)
        else none

/-- `height[:\s]+(\d+)` anchored at the current position (the tail of the
second dimensions regex). -/
def heightAt (l : List Char) : Option ℕ :=
  match matchCI "height".data l with
  | none => none
  | some r1 =>
    plusCap isColonSpace r1 fun _ r2 =>
      plusCap Char.isDigit r2 fun d _ =>
        some (digitsVal d)

/-- `/width[:\s]+(\d+).*height[:\s]+(\d+)/i` anchored at the current
position. -/
def dims2At (l : List Char) : Option (ℕ × ℕ) :=
  match matchCI "width".data l with
  | none => none
  | some r1 =>
    plusCap isColonSpace r1 fun _ r2 =>
      plusCap Char.isDigit r2 fun d1 r3 =>
        dotStarGreedyK r3 fun r4 =>
          match heightAt r4 with
          | some h => some (digitsVal d1, h)
          | none => none

/-- `/(\d+)\s*[-…]\s*(\d+)\s*kb/i` anchored at the current position,
parameterized by the dash character class (the server and client files store
the class with different bytes). -/
def size1At (dash : Char → Bool) (l : List Char) : Option (ℕ × ℕ) :=
  plusCap Char.isDigit l fun d1 r1 =>
    starGreedy isSpaceJS r1 fun r2 =>
      match r2 with
      | [] => none
      | c :: r3 =>
        if dash c then
          starGreedy isSpaceJS r3 fun r4 =>
            plusCap Char.isDigit r4 fun d2 r5 =>
              starGreedy isSpaceJS r5 fun r6 =>
                match matchCI "kb".data r6 with
                | some _ => some (digitsVal d1, digitsVal d2)
                | none => none
        else none

/-- `(\d+)\s*kb` anchored at the current position (the tail of the second
size regex). -/
def numKbAt (l : List Char) : Option ℕ :=
  plusCap Char.isDigit l fun d r1 =>
    starGreedy isSpaceJS r1 fun r2 =>
      match matchCI "kb".data r2 with
      | some _ => some (digitsVal d)
      | none => none

/-- `/size[:\s]+(\d+).*?(\d+)\s*kb/i` anchored at the current position. -/
def size2At (l : List Char) : Option (ℕ × ℕ) :=
  match matchCI "size".data l with
  | none => none
  | some r1 =>
    plusCap isColonSpace r1 fun _ r2 =>
      plusCap Char.isDigit r2 fun d1 r3 =>
        dotStarLazyK r3 fun r4 =>
          match numKbAt r4 with
          | some n => some (digitsVal d1, n)
          | none => none

/-- The dash class as stored in the server file (`[-â€“]`: the en-dash was
mojibake-encoded, so the class holds a hyphen plus the three bytes
`â`, `€`, `“`). -/
def isDashSrv (c : Char) : Bool := c = '-' || c = 'â' || c = '€' || c = '“'

/-- The dash class in the client file (`[-–]`: hyphen or en-dash). -/
def isDashCli (c : Char) : Bool := c = '-' || c = '–'

/-- One format alternative of `/\b(jpg|jpeg|png)\b/i`: case-insensitive token
followed by a word boundary; returns the lowercased capture. -/
def tokAt (tok : String) (l : List Char) : Option String :=
  match matchCI tok.data l with
  | none => none
  | some r =>
    match r with
    | [] => some tok
    | c :: _ => if isWordChar c then none else some tok

/-- Ordered alternation `jpg | jpeg | png` at the current position. -/
def fmtAt (l : List Char) : Option String :=
  match tokAt "jpg" l with
  | some s => some s
  | none =>
    match tokAt "jpeg" l with
    | some s => some s
    | none => tokAt "png" l

/-- Search for `/\b(jpg|jpeg|png)\b/i`, tracking whether the previous
character is a word character (for the leading `\b`). -/
def fmtSearchAux : Bool → List Char → Option String
  | _, [] => none
  | prevWord, c :: cs =>
    match (if prevWord then none else fmtAt (c :: cs)) with
    | some s => some s
    | none => fmtSearchAux (isWordChar c) cs

/-- Full-string search for the format regex. -/
def fmtSearch (l : List Char) : Option String := fmtSearchAux false l

/-- `text.match(dims1) || text.match(dims2)`. -/
def searchDims (l : List Char) : Option (ℕ × ℕ) :=
  match scanMatch dims1At l with
  | some r => some r
  | none => scanMatch dims2At l

/-- `text.match(size1) || text.match(size2)`. -/
def searchSize (dash : Char → Bool) (l : List Char) : Option (ℕ × ℕ) :=
  match scanMatch (size1At dash) l with
  | some r => some r
  | none => scanMatch size2At l

/-- `parseRuleText` from the backend (src/unnamed/part_001, lines 47–63):
three independent pattern searches, defaults filling every unmatched field. -/
def parseRuleText (s : String) : Rules :=
  let widthMatch := searchDims s.data
  let sizeMatch := searchSize isDashSrv s.data
  let formatMatch := fmtSearch s.data
  { width := match widthMatch with | some p => p.1 | none => 200
    height := match widthMatch with | some p => p.2 | none => 230
    minKb := match sizeMatch with | some p => p.1 | none => 20
    maxKb := match sizeMatch with | some p => p.2 | none => 50
    format := match formatMatch with | some f => f | none => "jpg" }

/-- `parseCustomRule` from the frontend (src/frontend/src/App.jsx,
lines 35–47): identical to the backend parser except for the dash class
bytes. -/
def parseCustomRule (s : String) : Rules :=
  let widthMatch := searchDims s.data
  let sizeMatch := searchSize isDashCli s.data
  let formatMatch := fmtSearch s.data
  { width := match widthMatch with | some p => p.1 | none => 200
    height := match widthMatch with | some p => p.2 | none => 230
    minKb := match sizeMatch with | some p => p.1 | none => 20
    maxKb := match sizeMatch with | some p => p.2 | none => 50
    format := match formatMatch with | some f => f | none => "jpg" }

example : parseRuleText "200x230, 20-50kb, jpg" =
    ⟨200, 230, 20, 50, "jpg"⟩ := by decide
example : parseCustomRule "hello world" = ⟨200, 230, 20, 50, "jpg"⟩ := by decide
example : parseRuleText "50-20kb" = ⟨200, 230, 50, 20, "jpg"⟩ := by decide
example : parseRuleText "width: 300 height: 400, size: 10 30kb, PNG" =
    ⟨300, 400, 10, 30, "png"⟩ := by decide

/-! ## Preset tables and rule derivation -/

/-- The backend preset table (src/unnamed/part_001, lines 110–115): a fixed
four-entry object; lookup of any other key yields `undefined` (`none`). -/
def presets (p : String) : Option Rules :=
  if p = "photo" then some ⟨200, 230, 20, 50, "jpg"⟩
  else if p = "signature" then some ⟨140, 60, 10, 20, "jpg"⟩
  else if p = "thumb" then some ⟨140, 60, 20, 50, "jpg"⟩
  else if p = "declaration" then some ⟨800, 300, 50, 100, "jpg"⟩
  else none

/-- The frontend `PRESETS` table (App.jsx lines 6–12), which adds a `custom`
sentinel entry. -/
def clientPRESETS (p : String) : Option Rules :=
  if p = "custom" then some ⟨0, 0, 0, 0, "jpg"⟩
  else if p = "photo" then some ⟨200, 230, 20, 50, "jpg"⟩
  else if p = "signature" then some ⟨140, 60, 10, 20, "jpg"⟩
  else if p = "thumb" then some ⟨140, 60, 20, 50, "jpg"⟩
  else if p = "declaration" then some ⟨800, 300, 50, 100, "jpg"⟩
  else none

/-- The default rule text used by the backend when `ruleText` is falsy. -/
def defaultRuleText : String := "Dimensions 200x230 pixels, size 20-50KB, JPG format"

/-- JS `ruleText || defaultRuleText` (absent or empty string is falsy). -/
def orDefaultText : Option String → String
  | some t => if t = "" then defaultRuleText else t
  | none => defaultRuleText

/-- Errors thrown inside the endpoint's `try` block and caught by its
`catch`. `unknownPreset` models the `TypeError` raised when an unknown
preset id makes `presets[preset]` come back `undefined` and the handler then
dereferences `rules.width`; `processFailed` models any sharp
decode/encode/metadata failure. -/
inductive ProcErr
  | unknownPreset
  | processFailed
deriving Repr, DecidableEq

/-- Rule selection in the endpooint (src/unnamed/part_001, lines 106–123):
`if (preset && preset !== 'custom')` take the preset table entry, otherwise
parse the rule text (or the default text). An unknown preset id leaves
`rules` undefined, which the processing step turns into a thrown error. -/
def deriveRules (preset : Option String) (ruleText : Option String) :
    Except ProcErr Rules :=
  match preset with
  | some p =>
    if p ≠ "" ∧ p ≠ "custom" then
      match presets p with
      | some r => .ok r
      | none => .error .unknownPreset
    else .ok (parseRuleText (orDefaultText ruleText))
  | none => .ok (parseRuleText (orDefaultText ruleText))

/-- Frontend `getCurrentRules` (App.jsx lines 29–34): the custom preset with
a non-empty rule text is parsed, anything else is a `PRESETS` lookup
(possibly `undefined`). -/
def getCurrentRules (selectedPreset : String) (customRule : String) :
    Option Rules :=
  if selectedPreset = "custom" ∧ customRule ≠ "" then
    some (parseCustomRule customRule)
  else clientPRESETS selectedPreset

/-! ## The size-fitting loops

A raster image is modelled by its pixel dimensions; an encoded buffer by its
dimensions plus byte length.  The encoder (sharp's jpeg/png encoder, canvas
`toBlob`) is abstracted as `enc : ℚ → ℕ` mapping the quality parameter to the
encoded byte length.  Each loop also emits the list of image operations it
performs, so that attempt counts and resize counts are part of the model. -/

/-- A raster image: pixel dimensions (pixel contents are irrelevant to every
claim and are abstracted away). -/
structure Raster where
  width : ℕ
  height : ℕ
deriving Repr, DecidableEq

/-- An encoded image buffer: the dimensions recorded in its metadata and its
byte length. -/
structure Buffer where
  width : ℕ
  height : ℕ
  len : ℕ
deriving Repr, DecidableEq

/-- `sharp(...).resize(width, height, { fit: 'fill' })` and the client's
`canvas.width = w; canvas.height = h; ctx.drawImage(img, 0, 0, w, h)`:
a fill/stretch resize whose output raster has exactly the requested
dimensions, whatever the source dimensions. -/
def resizeFill (_img : Raster) (w h : ℕ) : Raster := ⟨w, h⟩

/-- Encoding a raster at quality `q`: byte length given by the abstract
encoder, metadata dimensions preserved from the raster. -/
def encodeRaster (enc : ℚ → ℕ) (r : Raster) (q : ℚ) : Buffer :=
  ⟨r.width, r.height, enc q⟩

/-- An image operation performed by a processing path. -/
inductive SOp
  | resize (w h : ℕ)
  | encode (q : ℚ) (len : ℕ)
deriving Repr, DecidableEq

/-- The `(quality, byteLength)` pairs of the encode operations, in order. -/
def encodeTrace (ops : List SOp) : List (ℚ × ℕ) :=
  ops.filterMap fun op =>
    match op with
    | .encode q l => some (q, l)
    | _ => none

/-- Number of encode attempts performed. -/
def countEncodes (ops : List SOp) : ℕ := (encodeTrace ops).length

/-- Number of resize operations performed. -/
def countResizes (ops : List SOp) : ℕ :=
  (ops.filter fun op =>
    match op with
    | .resize _ _ => true
    | _ => false).length

/-- Byte length of the last encode attempt, if any. -/
def lastEncodeLen (ops : List SOp) : Option ℕ :=
  ((encodeTrace ops).getLast?).map Prod.snd

/-- Server quality adjustment (src/unnamed/part_001, lines 84–88):
`if (sizeKb > maxKb) quality -= 5; else if (sizeKb < minKb) quality += 3;`. -/
def serverAdjust (q sizeKb minKb maxKb : ℚ) : ℚ :=
  if sizeKb > maxKb then q - 5
  else if sizeKb < minKb then q + 3
  else q

/-- Server clamp (line 91): `quality = Math.max(10, Math.min(100, quality))`. -/
def serverClamp (q : ℚ) : ℚ := max 10 (min 100 q)

/-- Client quality adjustment (App.jsx lines 156–160):
`if (sizeKb > rules.maxKb) quality -= 0.05; else quality += 0.02;`. -/
def clientAdjust (q sizeKb maxKb : ℚ) : ℚ :=
  if sizeKb > maxKb then q - 0.05 else q + 0.02

/-- Client clamp (line 162): `quality = Math.max(0.1, Math.min(1, quality))`. -/
def clientClamp (q : ℚ) : ℚ := max 0.1 (min 1 q)

/-- The server `while (attempts < maxAttempts)` loop body
(src/unnamed/part_001, lines 66–96), fuel = remaining attempts.  Each
iteration runs the whole sharp chain — decode, resize (fill), encode — so a
resize operation is emitted per attempt.  The third argument is the `output`
variable holding the previous attempt's buffer. -/
def serverLoopAux (img : Raster) (w h : ℕ) (enc : ℚ → ℕ) (minKb maxKb : ℚ) :
    ℕ → ℚ → Option Buffer → Option Buffer × List SOp
  | 0, _, out => (out, [])
  | fuel + 1, q, _ =>
    let buf := encodeRaster enc (resizeFill img w h) q
    let sizeKb : ℚ := (buf.len : ℚ) / 1024
    if sizeKb ≤ maxKb ∧ sizeKb ≥ minKb then
      (some buf, [SOp.resize w h, SOp.encode q buf.len])
    else
      let rest := serverLoopAux img w h enc minKb maxKb fuel
        (serverClamp (serverAdjust q sizeKb minKb maxKb)) (some buf)
      (rest.1, SOp.resize w h :: SOp.encode q buf.len :: rest.2)

/-- `processImage` (src/unnamed/part_001): quality starts at 92,
`maxAttempts = 20`, `output = null` initially; returns the last buffer. -/
def processImage (img : Raster) (w h : ℕ) (enc : ℚ → ℕ) (minKb maxKb : ℚ) :
    Option Buffer × List SOp :=
  serverLoopAux img w h enc minKb maxKb 20 92 none

/-- The client `while (attempts < 15)` loop body (App.jsx lines 141–164):
only `canvas.toBlob` is repeated; the canvas raster is fixed. -/
def clientLoopAux (canvas : Raster) (enc : ℚ → ℕ) (minKb maxKb : ℚ) :
    ℕ → ℚ → Option Buffer → Option Buffer × List SOp
  | 0, _, out => (out, [])
  | fuel + 1, q, _ =>
    let blob := encodeRaster enc canvas q
    let sizeKb : ℚ := (blob.len : ℚ) / 1024
    if sizeKb ≤ maxKb ∧ sizeKb ≥ minKb then
      (some blob, [SOp.encode q blob.len])
    else
      let rest := clientLoopAux canvas enc minKb maxKb fuel
        (clientClamp (clientAdjust q sizeKb maxKb)) (some blob)
      (rest.1, SOp.encode q blob.len :: rest.2)

/-- The result record built by the client path (App.jsx lines 170–177). -/
structure ClientResult where
  width : ℕ
  height : ℕ
  sizeKb : ℚ
  format : String
  valid : Bool
deriving Repr, DecidableEq

/-- `processClientSide` (App.jsx lines 121–183): set the canvas to the rule
dimensions, draw the image stretched onto it (one resize), then run the
quality loop from 0.92 with 15 attempts; `valid` compares the exact final
`blob.size / 1024` against the window. -/
def processClientSide (img : Raster) (rules : Rules) (enc : ℚ → ℕ) :
    Option ClientResult × List SOp :=
  let canvas := resizeFill img rules.width rules.height
  let r := clientLoopAux canvas enc (rules.minKb : ℚ) (rules.maxKb : ℚ)
    15 0.92 none
  (r.1.map fun blob =>
    let finalSizeKb : ℚ := (blob.len : ℚ) / 1024
    { width := rules.width
      height := rules.height
      sizeKb := finalSizeKb
      format := rules.format.toUpper
      valid := decide (finalSizeKb ≤ (rules.maxKb : ℚ)) &&
        decide (finalSizeKb ≥ (rules.minKb : ℚ)) },
    SOp.resize rules.width rules.height :: r.2)

/-! ## The server endpoint -/

/-- `Number.prototype.toFixed(2)` followed by `parseFloat`, on the
non-negative sizes at hand: round to the nearest hundredth, ties away from
zero. -/
def toFixed2 (x : ℚ) : ℚ := ((⌊x * 100 + 1 / 2⌋ : ℤ) : ℚ) / 100

/-- The success JSON body of `/api/process` (src/unnamed/part_001,
lines 140–150): dimensions from the processed buffer's metadata,
`fileSizeKb` and `valid` both computed from `(len / 1024).toFixed(2)`. -/
structure ServerBody where
  width : ℕ
  height : ℕ
  fileSizeKb : ℚ
  format : String
  valid : Bool
deriving Repr, DecidableEq

/-- Build the success body from the rules and the processed buffer. -/
def serverBody (rules : Rules) (buf : Buffer) : ServerBody :=
  let sizeKb : ℚ := toFixed2 ((buf.len : ℚ) / 1024)
  { width := buf.width
    height := buf.height
    fileSizeKb := sizeKb
    format := rules.format.toUpper
    valid := decide (sizeKb ≤ (rules.maxKb : ℚ)) &&
      decide (sizeKb ≥ (rules.minKb : ℚ)) }

/-- Observable outcome of one `/api/process` request: HTTP status, success
body if any, and whether `fs.unlink` was invoked on the uploaded file. -/
structure HandlerOut where
  status : ℕ
  body? : Option ServerBody
  unlinked : Bool
deriving Repr, DecidableEq

/-- The `/api/process` handler (src/unnamed/part_001, lines 99–163).
`file` is the stored upload (`req.file`), `proc` abstracts the
resize-and-fit processing plus metadata read (it may throw).  The `try`
block unlinks the file before responding 200; the `catch` block unlinks it
(ignoring unlink errors) before responding 500. -/
def handleProcess (file : Option String) (preset ruleText : Option String)
    (proc : Rules → Except ProcErr Buffer) : HandlerOut :=
  match file with
  | none => ⟨400, none, false⟩
  | some _ =>
    match deriveRules preset ruleText with
    | .error _ => ⟨500, none, true⟩
    | .ok rules =>
      match proc rules with
      | .error _ => ⟨500, none, true⟩
      | .ok buf => ⟨200, some (serverBody rules buf), true⟩

/-! ## The common quality-search skeleton (for the refinement claim) -/

/-- Parameters of the quality-search skeleton shared by the two paths. -/
structure FitParams where
  qInit : ℚ
  stepDown : ℚ
  stepUp : ℚ
  qMin : ℚ
  qMax : ℚ
  budget : ℕ
deriving Repr, DecidableEq

/-- The parameterized quality-search loop: encode, stop inside the window,
otherwise step the quality down or up, clamp, repeat; returns the last byte
length and the encode trace. -/
def fitLoopAux (p : FitParams) (enc : ℚ → ℕ) (minKb maxKb : ℚ) :
    ℕ → ℚ → Option ℕ → Option ℕ × List (ℚ × ℕ)
  | 0, _, out => (out, [])
  | fuel + 1, q, _ =>
    let len := enc q
    let sizeKb : ℚ := (len : ℚ) / 1024
    if sizeKb ≤ maxKb ∧ sizeKb ≥ minKb then (some len, [(q, len)])
    else
      let rest := fitLoopAux p enc minKb maxKb fuel
        (max p.qMin (min p.qMax
          (if sizeKb > maxKb then q - p.stepDown else q + p.stepUp))) (some len)
      (rest.1, (q, len) :: rest.2)

/-- Run the skeleton from its initial quality with its full budget. -/
def fitLoop (p : FitParams) (enc : ℚ → ℕ) (minKb maxKb : ℚ) :
    Option ℕ × List (ℚ × ℕ) :=
  fitLoopAux p enc minKb maxKb p.budget p.qInit none

/-- The server path's parameters on its 0–100 quality scale. -/
def serverParams : FitParams := ⟨92, 5, 3, 10, 100, 20⟩

/-- The client path's parameters on its 0–1 quality scale. -/
def clientParams : FitParams := ⟨0.92, 0.05, 0.02, 0.1, 1, 15⟩

/-! ## Helper lemmas: trace algebra -/

theorem encodeTrace_nil : encodeTrace [] = [] := rfl

theorem encodeTrace_resize (w h : ℕ) (ops : List SOp) :
    encodeTrace (SOp.resize w h :: ops) = encodeTrace ops := rfl

theorem encodeTrace_encode (q : ℚ) (len : ℕ) (ops : List SOp) :
    encodeTrace (SOp.encode q len :: ops) = (q, len) :: encodeTrace ops := rfl

theorem countResizes_resize (w h : ℕ) (ops : List SOp) :
    countResizes (SOp.resize w h :: ops) = countResizes ops + 1 := by
  simp [countResizes, List.filter]

theorem countResizes_encode (q : ℚ) (len : ℕ) (ops : List SOp) :
    countResizes (SOp.encode q len :: ops) = countResizes ops := by
  simp [countResizes, List.filter]

theorem serverClamp_bounds (x : ℚ) : 10 ≤ serverClamp x ∧ serverClamp x ≤ 100 :=
  ⟨le_max_left _ _, max_le (by norm_num) (min_le_left _ _)⟩

theorem clientClamp_bounds (x : ℚ) : 0.1 ≤ clientClamp x ∧ clientClamp x ≤ 1 :=
  ⟨le_max_left _ _, max_le (by norm_num) (min_le_left _ _)⟩

/-! ## Helper lemmas: the server loop -/

theorem serverLoopAux_last (img : Raster) (w h : ℕ) (enc : ℚ → ℕ)
    (minKb maxKb : ℚ) :
    ∀ (fuel : ℕ) (q : ℚ) (prev : Option Buffer),
      ((serverLoopAux img w h enc minKb maxKb fuel q prev).1).map Buffer.len =
        (match lastEncodeLen (serverLoopAux img w h enc minKb maxKb fuel q prev).2 with
          | some l => some l
          | none => prev.map Buffer.len) := by
  intro fuel
  induction fuel with
  | zero => intro q prev; simp [serverLoopAux, lastEncodeLen, encodeTrace]
  | succ n ih =>
    intro q prev
    simp only [serverLoopAux, encodeRaster, resizeFill]
    split
    next hcond => simp [lastEncodeLen, encodeTrace]
    next hcond =>
      have := ih (serverClamp (serverAdjust q ((enc q : ℚ) / 1024) minKb maxKb))
        (some ⟨w, h, enc q⟩)
      simp only [encodeTrace_resize, encodeTrace_encode, lastEncodeLen] at this ⊢
      rcases hT : encodeTrace (serverLoopAux img w h enc minKb maxKb n
          (serverClamp (serverAdjust q ((enc q : ℚ) / 1024) minKb maxKb))
          (some ⟨w, h, enc q⟩)).2 with _ | ⟨x, t⟩
      · rw [hT] at this
        simp only [List.getLast?_nil, Option.map_none', Option.map_some'] at this
        simp [hT, this]
      · rw [hT] at this
        have hy : ∃ y, (x :: t).getLast? = some y := by
          have : (x :: t).getLast?.isSome := by
            rw [List.getLast?_isSome]
            exact List.cons_ne_nil _ _
          exact Option.isSome_iff_exists.mp this
        rcases hy with ⟨y, hy⟩
        rw [List.getLast?_cons_cons, hy]
        rw [hy] at this
        simpa using this

theorem serverLoopAux_counts (img : Raster) (w h : ℕ) (enc : ℚ → ℕ)
    (minKb maxKb : ℚ) :
    ∀ (fuel : ℕ) (q : ℚ) (prev : Option Buffer),
      countEncodes (serverLoopAux img w h enc minKb maxKb fuel q prev).2 ≤ fuel ∧
      countResizes (serverLoopAux img w h enc minKb maxKb fuel q prev).2 =
        countEncodes (serverLoopAux img w h enc minKb maxKb fuel q prev).2 := by
  intro fuel
  induction fuel with
  | zero =>
    intro q prev
    simp [serverLoopAux, countEncodes, countResizes, encodeTrace]
  | succ n ih =>
    intro q prev
    simp only [serverLoopAux, encodeRaster, resizeFill]
    split
    next hcond =>
      simp [countEncodes, countResizes, encodeTrace, List.filter]
    next hcond =>
      have := ih (serverClamp (serverAdjust q ((enc q : ℚ) / 1024) minKb maxKb))
        (some ⟨w, h, enc q⟩)
      constructor
      · simp only [countEncodes, encodeTrace_resize, encodeTrace_encode,
          List.length_cons]
        exact Nat.succ_le_succ this.1
      · simp only [countEncodes, encodeTrace_resize, encodeTrace_encode,
          countResizes_resize, countResizes_encode, List.length_cons]
        rw [this.2]
        rfl

theorem serverLoopAux_one (img : Raster) (w h : ℕ) (enc : ℚ → ℕ)
    (minKb maxKb : ℚ) (fuel : ℕ) (q : ℚ) (prev : Option Buffer) :
    1 ≤ countEncodes (serverLoopAux img w h enc minKb maxKb (fuel + 1) q prev).2 := by
  simp only [serverLoopAux, encodeRaster, resizeFill]
  split
  next hcond => simp [countEncodes, encodeTrace]
  next hcond =>
    simp only [countEncodes, encodeTrace_resize, encodeTrace_encode,
      List.length_cons]
    exact Nat.succ_le_succ (Nat.zero_le _)

theorem serverLoopAux_bounds (img : Raster) (w h : ℕ) (enc : ℚ → ℕ)
    (minKb maxKb : ℚ) :
    ∀ (fuel : ℕ) (q : ℚ) (prev : Option Buffer), 10 ≤ q → q ≤ 100 →
      ∀ p ∈ encodeTrace (serverLoopAux img w h enc minKb maxKb fuel q prev).2,
        10 ≤ p.1 ∧ p.1 ≤ 100 := by
  intro fuel
  induction fuel with
  | zero =>
    intro q prev _ _ p hp
    simp [serverLoopAux, encodeTrace] at hp
  | succ n ih =>
    intro q prev h10 h100 p hp
    simp only [serverLoopAux, encodeRaster, resizeFill] at hp
    by_cases hcc : ((enc q : ℚ) / 1024 ≤ maxKb ∧ (enc q : ℚ) / 1024 ≥ minKb)
    · rw [if_pos hcc] at hp
      simp only [encodeTrace_resize, encodeTrace_encode, encodeTrace_nil,
        List.mem_singleton] at hp
      subst hp
      exact ⟨h10, h100⟩
    · rw [if_neg hcc] at hp
      simp only [encodeTrace_resize, encodeTrace_encode, List.mem_cons] at hp
      rcases hp with hp | hp
      · subst hp; exact ⟨h10, h100⟩
      · exact ih _ _ (serverClamp_bounds _).1 (serverClamp_bounds _).2 p hp

theorem serverLoopAux_head (img : Raster) (w h : ℕ) (enc : ℚ → ℕ)
    (minKb maxKb : ℚ) (fuel : ℕ) (q : ℚ) (prev : Option Buffer) :
    ∃ t, encodeTrace (serverLoopAux img w h enc minKb maxKb (fuel + 1) q prev).2 =
      (q, enc q) :: t := by
  simp only [serverLoopAux, encodeRaster, resizeFill]
  split
  next hcond => exact ⟨[], rfl⟩
  next hcond => exact ⟨_, rfl⟩

theorem serverLoopAux_chain (img : Raster) (w h : ℕ) (enc : ℚ → ℕ)
    (minKb maxKb : ℚ) :
    ∀ (fuel : ℕ) (q : ℚ) (prev : Option Buffer),
      List.Chain'
        (fun a b => b.1 = serverClamp (serverAdjust a.1 ((a.2 : ℚ) / 1024) minKb maxKb))
        (encodeTrace (serverLoopAux img w h enc minKb maxKb fuel q prev).2) := by
  intro fuel
  induction fuel with
  | zero => intro q prev; simp [serverLoopAux, encodeTrace]
  | succ n ih =>
    intro q prev
    simp only [serverLoopAux, encodeRaster, resizeFill]
    split
    next hcond => simp [encodeTrace]
    next hcond =>
      simp only [encodeTrace_resize, encodeTrace_encode]
      rw [List.chain'_cons']
      refine ⟨?_, ih _ _⟩
      intro y hy
      rcases n with _ | m
      · simp [serverLoopAux, encodeTrace] at hy
      · rcases serverLoopAux_head img w h enc minKb maxKb m
          (serverClamp (serverAdjust q ((enc q : ℚ) / 1024) minKb maxKb))
          (some ⟨w, h, enc q⟩) with ⟨t, ht⟩
        rw [ht] at hy
        simp only [List.head?_cons, Option.mem_def, Option.some_inj] at hy
        subst hy
        rfl

theorem serverLoopAux_dims (img : Raster) (w h : ℕ) (enc : ℚ → ℕ)
    (minKb maxKb : ℚ) :
    ∀ (fuel : ℕ) (q : ℚ) (prev : Option Buffer),
      (∀ b, prev = some b → b.width = w ∧ b.height = h) →
      ∀ b, (serverLoopAux img w h enc minKb maxKb fuel q prev).1 = some b →
        b.width = w ∧ b.height = h := by
  intro fuel
  induction fuel with
  | zero =>
    intro q prev hprev b hb
    simp only [serverLoopAux] at hb
    exact hprev b hb
  | succ n ih =>
    intro q prev hprev b hb
    simp only [serverLoopAux, encodeRaster, resizeFill] at hb
    by_cases hcc : ((enc q : ℚ) / 1024 ≤ maxKb ∧ (enc q : ℚ) / 1024 ≥ minKb)
    · rw [if_pos hcc] at hb
      simp only [Option.some_inj] at hb
      subst hb
      exact ⟨rfl, rfl⟩
    · rw [if_neg hcc] at hb
      exact ih _ _ (fun c hc => by
        simp only [Option.some_inj] at hc
        subst hc
        exact ⟨rfl, rfl⟩) b hb

theorem serverLoopAux_fit (img : Raster) (w h : ℕ) (enc : ℚ → ℕ)
    (minKb maxKb : ℚ) :
    ∀ (fuel : ℕ) (q : ℚ) (prev : Option Buffer),
      ((serverLoopAux img w h enc minKb maxKb fuel q prev).1).map Buffer.len =
        (fitLoopAux serverParams enc minKb maxKb fuel q (prev.map Buffer.len)).1 ∧
      encodeTrace (serverLoopAux img w h enc minKb maxKb fuel q prev).2 =
        (fitLoopAux serverParams enc minKb maxKb fuel q (prev.map Buffer.len)).2 := by
  intro fuel
  induction fuel with
  | zero => intro q prev; simp [serverLoopAux, fitLoopAux, encodeTrace]
  | succ n ih =>
    intro q prev
    simp only [serverLoopAux, fitLoopAux, encodeRaster, resizeFill]
    by_cases hcc : ((enc q : ℚ) / 1024 ≤ maxKb ∧ (enc q : ℚ) / 1024 ≥ minKb)
    · rw [if_pos hcc, if_pos hcc]
      exact ⟨rfl, rfl⟩
    · rw [if_neg hcc, if_neg hcc]
      have hq : serverClamp (serverAdjust q ((enc q : ℚ) / 1024) minKb maxKb) =
          max serverParams.qMin (min serverParams.qMax
            (if (enc q : ℚ) / 1024 > maxKb then q - serverParams.stepDown
              else q + serverParams.stepUp)) := by
        simp only [serverClamp, serverAdjust, serverParams]
        by_cases hgt : (enc q : ℚ) / 1024 > maxKb
        · rw [if_pos hgt, if_pos hgt]
        · rw [if_neg hgt, if_neg hgt]
          have hlt : (enc q : ℚ) / 1024 < minKb := by
            rcases not_and_or.mp hcc with hx | hx
            · exact absurd (le_of_not_lt hgt) hx
            · exact lt_of_not_le hx
          rw [if_pos hlt]
      have := ih (serverClamp (serverAdjust q ((enc q : ℚ) / 1024) minKb maxKb))
        (some ⟨w, h, enc q⟩)
      rw [hq] at this
      rw [hq]
      simp only [Option.map_some'] at this
      constructor
      · simpa using this.1
      · simp only [encodeTrace_resize, encodeTrace_encode]
        simp [this.2]

/-! ## Helper lemmas: the client loop -/

theorem clientLoopAux_last (canvas : Raster) (enc : ℚ → ℕ) (minKb maxKb : ℚ) :
    ∀ (fuel : ℕ) (q : ℚ) (prev : Option Buffer),
      ((clientLoopAux canvas enc minKb maxKb fuel q prev).1).map Buffer.len =
        (match lastEncodeLen (clientLoopAux canvas enc minKb maxKb fuel q prev).2 with
          | some l => some l
          | none => prev.map Buffer.len) := by
  intro fuel
  induction fuel with
  | zero => intro q prev; simp [clientLoopAux, lastEncodeLen, encodeTrace]
  | succ n ih =>
    intro q prev
    simp only [clientLoopAux, encodeRaster]
    split
    next hcond => simp [lastEncodeLen, encodeTrace]
    next hcond =>
      have := ih (clientClamp (clientAdjust q ((enc q : ℚ) / 1024) maxKb))
        (some ⟨canvas.width, canvas.height, enc q⟩)
      simp only [encodeTrace_encode, lastEncodeLen] at this ⊢
      rcases hT : encodeTrace (clientLoopAux canvas enc minKb maxKb n
          (clientClamp (clientAdjust q ((enc q : ℚ) / 1024) maxKb))
          (some ⟨canvas.width, canvas.height, enc q⟩)).2 with _ | ⟨x, t⟩
      · rw [hT] at this
        simp only [List.getLast?_nil, Option.map_none', Option.map_some'] at this
        simp [hT, this]
      · rw [hT] at this
        have hy : ∃ y, (x :: t).getLast? = some y := by
          have : (x :: t).getLast?.isSome := by
            rw [List.getLast?_isSome]
            exact List.cons_ne_nil _ _
          exact Option.isSome_iff_exists.mp this
        rcases hy with ⟨y, hy⟩
        rw [List.getLast?_cons_cons, hy]
        rw [hy] at this
        simpa using this

theorem clientLoopAux_counts (canvas : Raster) (enc : ℚ → ℕ) (minKb maxKb : ℚ) :
    ∀ (fuel : ℕ) (q : ℚ) (prev : Option Buffer),
      countEncodes (clientLoopAux canvas enc minKb maxKb fuel q prev).2 ≤ fuel ∧
      countResizes (clientLoopAux canvas enc minKb maxKb fuel q prev).2 = 0 := by
  intro fuel
  induction fuel with
  | zero =>
    intro q prev
    simp [clientLoopAux, countEncodes, countResizes, encodeTrace]
  | succ n ih =>
    intro q prev
    simp only [clientLoopAux, encodeRaster]
    split
    next hcond =>
      simp [countEncodes, countResizes, encodeTrace, List.filter]
    next hcond =>
      have := ih (clientClamp (clientAdjust q ((enc q : ℚ) / 1024) maxKb))
        (some ⟨canvas.width, canvas.height, enc q⟩)
      constructor
      · simp only [countEncodes, encodeTrace_encode, List.length_cons]
        exact Nat.succ_le_succ this.1
      · simp only [countResizes_encode]
        exact this.2

theorem clientLoopAux_one (canvas : Raster) (enc : ℚ → ℕ) (minKb maxKb : ℚ)
    (fuel : ℕ) (q : ℚ) (prev : Option Buffer) :
    1 ≤ countEncodes (clientLoopAux canvas enc minKb maxKb (fuel + 1) q prev).2 := by
  simp only [clientLoopAux, encodeRaster]
  split
  next hcond => simp [countEncodes, encodeTrace]
  next hcond =>
    simp only [countEncodes, encodeTrace_encode, List.length_cons]
    exact Nat.succ_le_succ (Nat.zero_le _)

theorem clientLoopAux_bounds (canvas : Raster) (enc : ℚ → ℕ) (minKb maxKb : ℚ) :
    ∀ (fuel : ℕ) (q : ℚ) (prev : Option Buffer), 0.1 ≤ q → q ≤ 1 →
      ∀ p ∈ encodeTrace (clientLoopAux canvas enc minKb maxKb fuel q prev).2,
        0.1 ≤ p.1 ∧ p.1 ≤ 1 := by
  intro fuel
  induction fuel with
  | zero =>
    intro q prev _ _ p hp
    simp [clientLoopAux, encodeTrace] at hp
  | succ n ih =>
    intro q prev h01 h1 p hp
    simp only [clientLoopAux, encodeRaster] at hp
    by_cases hcc : ((enc q : ℚ) / 1024 ≤ maxKb ∧ (enc q : ℚ) / 1024 ≥ minKb)
    · rw [if_pos hcc] at hp
      simp only [encodeTrace_encode, encodeTrace_nil, List.mem_singleton] at hp
      subst hp
      exact ⟨h01, h1⟩
    · rw [if_neg hcc] at hp
      simp only [encodeTrace_encode, List.mem_cons] at hp
      rcases hp with hp | hp
      · subst hp; exact ⟨h01, h1⟩
      · exact ih _ _ (clientClamp_bounds _).1 (clientClamp_bounds _).2 p hp

theorem clientLoopAux_head (canvas : Raster) (enc : ℚ → ℕ) (minKb maxKb : ℚ)
    (fuel : ℕ) (q : ℚ) (prev : Option Buffer) :
    ∃ t, encodeTrace (clientLoopAux canvas enc minKb maxKb (fuel + 1) q prev).2 =
      (q, enc q) :: t := by
  simp only [clientLoopAux, encodeRaster]
  split
  next hcond => exact ⟨[], rfl⟩
  next hcond => exact ⟨_, rfl⟩

theorem clientLoopAux_chain (canvas : Raster) (enc : ℚ → ℕ) (minKb maxKb : ℚ) :
    ∀ (fuel : ℕ) (q : ℚ) (prev : Option Buffer),
      List.Chain'
        (fun a b => b.1 = clientClamp (clientAdjust a.1 ((a.2 : ℚ) / 1024) maxKb))
        (encodeTrace (clientLoopAux canvas enc minKb maxKb fuel q prev).2) := by
  intro fuel
  induction fuel with
  | zero => intro q prev; simp [clientLoopAux, encodeTrace]
  | succ n ih =>
    intro q prev
    simp only [clientLoopAux, encodeRaster]
    split
    next hcond => simp [encodeTrace]
    next hcond =>
      simp only [encodeTrace_encode]
      rw [List.chain'_cons']
      refine ⟨?_, ih _ _⟩
      intro y hy
      rcases n with _ | m
      · simp [clientLoopAux, encodeTrace] at hy
      · rcases clientLoopAux_head canvas enc minKb maxKb m
          (clientClamp (clientAdjust q ((enc q : ℚ) / 1024) maxKb))
          (some ⟨canvas.width, canvas.height, enc q⟩) with ⟨t, ht⟩
        rw [ht] at hy
        simp only [List.head?_cons, Option.mem_def, Option.some_inj] at hy
        subst hy
        rfl

theorem clientLoopAux_fit (canvas : Raster) (enc : ℚ → ℕ) (minKb maxKb : ℚ) :
    ∀ (fuel : ℕ) (q : ℚ) (prev : Option Buffer),
      ((clientLoopAux canvas enc minKb maxKb fuel q prev).1).map Buffer.len =
        (fitLoopAux clientParams enc minKb maxKb fuel q (prev.map Buffer.len)).1 ∧
      encodeTrace (clientLoopAux canvas enc minKb maxKb fuel q prev).2 =
        (fitLoopAux clientParams enc minKb maxKb fuel q (prev.map Buffer.len)).2 := by
  intro fuel
  induction fuel with
  | zero => intro q prev; simp [clientLoopAux, fitLoopAux, encodeTrace]
  | succ n ih =>
    intro q prev
    simp only [clientLoopAux, fitLoopAux, encodeRaster]
    by_cases hcc : ((enc q : ℚ) / 1024 ≤ maxKb ∧ (enc q : ℚ) / 1024 ≥ minKb)
    · rw [if_pos hcc, if_pos hcc]
      exact ⟨rfl, rfl⟩
    · rw [if_neg hcc, if_neg hcc]
      have hq : clientClamp (clientAdjust q ((enc q : ℚ) / 1024) maxKb) =
          max clientParams.qMin (min clientParams.qMax
            (if (enc q : ℚ) / 1024 > maxKb then q - clientParams.stepDown
              else q + clientParams.stepUp)) := by
        simp only [clientClamp, clientAdjust, clientParams]
      have := ih (clientClamp (clientAdjust q ((enc q : ℚ) / 1024) maxKb))
        (some ⟨canvas.width, canvas.height, enc q⟩)
      rw [hq] at this
      rw [hq]
      simp only [Option.map_some'] at this
      constructor
      · simpa using this.1
      · simp only [encodeTrace_encode]
        simp [this.2]

theorem countEncodes_resize (w h : ℕ) (ops : List SOp) :
    countEncodes (SOp.resize w h :: ops) = countEncodes ops := by
  simp [countEncodes, encodeTrace_resize]

theorem lastEncodeLen_resize (w h : ℕ) (ops : List SOp) :
    lastEncodeLen (SOp.resize w h :: ops) = lastEncodeLen ops := by
  simp [lastEncodeLen, encodeTrace_resize]

theorem optionMatch_id (o : Option ℕ) :
    (match o with | some l => some l | none => (none : Option ℕ)) = o := by
  cases o <;> rfl

/-! ## Claim theorems -/

/-- C1: for every input image, encoder behaviour, and spec — including specs
whose byte-size window can never be reached — the quality-search loop
terminates within the fixed attempt budget (at most 20 encode attempts in the
server path and 15 in the client path, and at least one), and the value
returned is exactly the last encoded buffer produced, even if its size is
outside the window. -/
theorem C1_budget_and_last_buffer (img : Raster) (w h : ℕ) (enc encC : ℚ → ℕ)
    (minKb maxKb : ℚ) (rules : Rules) :
    (1 ≤ countEncodes (processImage img w h enc minKb maxKb).2 ∧
      countEncodes (processImage img w h enc minKb maxKb).2 ≤ 20 ∧
      ((processImage img w h enc minKb maxKb).1).map Buffer.len =
        lastEncodeLen (processImage img w h enc minKb maxKb).2) ∧
    (1 ≤ countEncodes (processClientSide img rules encC).2 ∧
      countEncodes (processClientSide img rules encC).2 ≤ 15 ∧
      ((processClientSide img rules encC).1).map ClientResult.sizeKb =
        (lastEncodeLen (processClientSide img rules encC).2).map
          (fun l : ℕ => (l : ℚ) / 1024)) := by
  constructor
  · refine ⟨?_, ?_, ?_⟩
    · exact serverLoopAux_one img w h enc minKb maxKb 19 92 none
    · exact (serverLoopAux_counts img w h enc minKb maxKb 20 92 none).1
    · have hl := serverLoopAux_last img w h enc minKb maxKb 20 92 none
      simp only [Option.map_none'] at hl
      rw [optionMatch_id] at hl
      exact hl
  · simp only [processClientSide]
    refine ⟨?_, ?_, ?_⟩
    · simpa [countEncodes_resize] using
        clientLoopAux_one (resizeFill img rules.width rules.height) encC
          (rules.minKb : ℚ) (rules.maxKb : ℚ) 14 0.92 none
    · simpa [countEncodes_resize] using
        (clientLoopAux_counts (resizeFill img rules.width rules.height) encC
          (rules.minKb : ℚ) (rules.maxKb : ℚ) 15 0.92 none).1
    · have hl := clientLoopAux_last (resizeFill img rules.width rules.height)
        encC (rules.minKb : ℚ) (rules.maxKb : ℚ) 15 0.92 none
      simp only [Option.map_none'] at hl
      rw [optionMatch_id] at hl
      rw [lastEncodeLen_resize, Option.map_map, ← hl, Option.map_map]
      rfl

/-- C4: across every iteration of the quality-search loop, for every encoder
behaviour and every spec (including adversarial ones such as maxKb = 0), the
quality value passed to the encoder stays within the encoder scale's valid
range: [10, 100] for the server path, [0.1, 1] for the client path. -/
theorem C4_quality_stays_clamped (img : Raster) (w h : ℕ) (enc encC : ℚ → ℕ)
    (minKb maxKb : ℚ) (rules : Rules) (p : ℚ × ℕ) :
    (p ∈ encodeTrace (processImage img w h enc minKb maxKb).2 →
      10 ≤ p.1 ∧ p.1 ≤ 100) ∧
    (p ∈ encodeTrace (processClientSide img rules encC).2 →
      0.1 ≤ p.1 ∧ p.1 ≤ 1) := by
  constructor
  · intro hp
    exact serverLoopAux_bounds img w h enc minKb maxKb 20 92 none
      (by norm_num) (by norm_num) p hp
  · intro hp
    simp only [processClientSide, encodeTrace_resize] at hp
    exact clientLoopAux_bounds (resizeFill img rules.width rules.height) encC
      (rules.minKb : ℚ) (rules.maxKb : ℚ) 15 0.92 none
      (by norm_num) (by norm_num) p hp

/-- Witness for C4: with an encoder that immediately lands in the window, the
first (and only) attempt uses quality 92 on the server and 0.92 on the
client, each within its scale's range. -/
theorem C4_quality_stays_clamped_witness :
    (10 ≤ (92 : ℚ) ∧ (92 : ℚ) ≤ 100) ∧
    (0.1 ≤ (0.92 : ℚ) ∧ (0.92 : ℚ) ≤ 1) := by
  constructor
  · exact (C4_quality_stays_clamped ⟨9, 9⟩ 5 5 (fun _ => 15360) (fun _ => 15360)
      10 20 ⟨5, 5, 10, 20, "jpg"⟩ (92, 15360)).1
      (by norm_num [processImage, serverLoopAux, encodeRaster, resizeFill,
        encodeTrace])
  · exact (C4_quality_stays_clamped ⟨9, 9⟩ 5 5 (fun _ => 15360) (fun _ => 15360)
      10 20 ⟨5, 5, 10, 20, "jpg"⟩ (0.92, 15360)).2
      (by norm_num [processClientSide, clientLoopAux, encodeRaster, resizeFill,
        encodeTrace, encodeTrace_resize])

/-- C9: every `/api/process` request that stores an uploaded source file has
that file unlinked before the request completes, on every exit path —
success (valid or not) and processing exception alike. -/
theorem C9_upload_always_unlinked (f : String) (preset ruleText : Option String)
    (proc : Rules → Except ProcErr Buffer) :
    (handleProcess (some f) preset ruleText proc).unlinked = true := by
  unfold handleProcess
  cases hd : deriveRules preset ruleText with
  | error e => simp [hd]
  | ok rules =>
    cases hp : proc rules with
    | error e => simp [hd, hp]
    | ok buf => simp [hd, hp]

/-- C3 counterexample: the claim states the fill/stretch resize is performed
once before the re-encode loop in both paths, but a server run whose window
is never reached performs the resize 20 times — once in every attempt of the
sharp pipeline — not once. -/
theorem C3_resize_count_counterexample :
    countResizes (processImage ⟨1000, 1000⟩ 200 230 (fun _ => 1) 20 50).2 = 20 ∧
    (1 : ℕ) < 20 := by
  constructor
  · norm_num [processImage, serverLoopAux, encodeRaster, resizeFill, serverClamp,
      serverAdjust, countResizes, max_def, min_def, List.filter]
  · norm_num

/-- C3 (amended): both paths always return exactly the spec's width and
height, regardless of the source raster (fill/stretch semantics); the resize
is performed once before the loop in the client path, while the server path
re-runs the fill resize in every attempt (always with the same output
dimensions). -/
theorem C3_amended_dims_exact (img : Raster) (w h : ℕ) (enc encC : ℚ → ℕ)
    (minKb maxKb : ℚ) (rules : Rules) (buf : Buffer) (res : ClientResult) :
    ((processImage img w h enc minKb maxKb).1 = some buf →
      buf.width = w ∧ buf.height = h) ∧
    countResizes (processImage img w h enc minKb maxKb).2 =
      countEncodes (processImage img w h enc minKb maxKb).2 ∧
    ((processClientSide img rules encC).1 = some res →
      res.width = rules.width ∧ res.height = rules.height) ∧
    countResizes (processClientSide img rules encC).2 = 1 := by
  refine ⟨?_, ?_, ?_, ?_⟩
  · intro hb
    exact serverLoopAux_dims img w h enc minKb maxKb 20 92 none
      (fun b hb0 => by cases hb0) buf hb
  · exact (serverLoopAux_counts img w h enc minKb maxKb 20 92 none).2
  · intro hr
    simp only [processClientSide, Option.map_eq_some'] at hr
    rcases hr with ⟨blob, _, hblob⟩
    subst hblob
    exact ⟨rfl, rfl⟩
  · simp only [processClientSide, countResizes_resize]
    rw [(clientLoopAux_counts (resizeFill img rules.width rules.height) encC
      (rules.minKb : ℚ) (rules.maxKb : ℚ) 15 0.92 none).2]

/-- Witness for C3 (amended): a run that lands in the window on the first
attempt returns a 140×60 buffer on the server and a 140×60 result on the
client. -/
theorem C3_amended_dims_exact_witness :
    ((140 : ℕ) = 140 ∧ (60 : ℕ) = 60) ∧ ((140 : ℕ) = 140 ∧ (60 : ℕ) = 60) := by
  constructor
  · exact (C3_amended_dims_exact ⟨1000, 1000⟩ 140 60 (fun _ => 15360)
      (fun _ => 15360) 10 20 ⟨140, 60, 10, 20, "jpg"⟩ ⟨140, 60, 15360⟩
      ⟨140, 60, 15, "jpg".toUpper, true⟩).1
      (by norm_num [processImage, serverLoopAux, encodeRaster, resizeFill])
  · exact (C3_amended_dims_exact ⟨1000, 1000⟩ 140 60 (fun _ => 15360)
      (fun _ => 15360) 10 20 ⟨140, 60, 10, 20, "jpg"⟩ ⟨140, 60, 15360⟩
      ⟨140, 60, 15, "jpg".toUpper, true⟩).2.2.1
      (by norm_num [processClientSide, clientLoopAux, encodeRaster, resizeFill])

/-- C5 counterexample: at an undersized attempt the client path increases the
quality by 0.02 — 2% of its 0–1 scale — strictly less than the 3% step the
claim asserts for both implementations. -/
theorem C5_step_counterexample :
    clientAdjust 0.92 1 20 = 0.94 ∧ (0.94 : ℚ) < 0.92 + 3 / 100 := by
  constructor
  · norm_num [clientAdjust]
  · norm_num

/-- C5 (amended): when the encoded size is oversized, both paths decrease the
quality by 5% of their scale (−5 server, −0.05 client); when it is
undersized, the server increases it by 3% (+3) but the client by only 2%
(+0.02); consecutive attempts of each loop are related exactly by
clamp ∘ adjust. -/
theorem C5_amended_fixed_steps (q s minKb maxKb : ℚ) (img : Raster)
    (w h : ℕ) (enc encC : ℚ → ℕ) (rules : Rules) :
    (s > maxKb → serverAdjust q s minKb maxKb = q - 5 ∧
      clientAdjust q s maxKb = q - 0.05) ∧
    (¬ s > maxKb → s < minKb → serverAdjust q s minKb maxKb = q + 3) ∧
    (¬ s > maxKb → clientAdjust q s maxKb = q + 0.02) ∧
    List.Chain'
      (fun a b => b.1 = serverClamp (serverAdjust a.1 ((a.2 : ℚ) / 1024) minKb maxKb))
      (encodeTrace (processImage img w h enc minKb maxKb).2) ∧
    List.Chain'
      (fun a b => b.1 = clientClamp (clientAdjust a.1 ((a.2 : ℚ) / 1024) (rules.maxKb : ℚ)))
      (encodeTrace (processClientSide img rules encC).2) := by
  refine ⟨?_, ?_, ?_, ?_, ?_⟩
  · intro hgt
    exact ⟨by simp [serverAdjust, hgt], by simp [clientAdjust, hgt]⟩
  · intro hgt hlt
    simp [serverAdjust, hgt, hlt]
  · intro hgt
    simp [clientAdjust, hgt]
  · exact serverLoopAux_chain img w h enc minKb maxKb 20 92 none
  · simp only [processClientSide, encodeTrace_resize]
    exact clientLoopAux_chain (resizeFill img rules.width rules.height) encC
      (rules.minKb : ℚ) (rules.maxKb : ℚ) 15 0.92 none

/-- Witness for C5 (amended): concrete oversized and undersized attempts take
the stated steps. -/
theorem C5_amended_fixed_steps_witness :
    (serverAdjust 50 100 10 20 = 50 - 5 ∧ clientAdjust 50 100 20 = 50 - 0.05) ∧
    serverAdjust 50 1 10 20 = 50 + 3 ∧ clientAdjust 50 1 20 = 50 + 0.02 := by
  have hover := C5_amended_fixed_steps 50 100 10 20 ⟨1, 1⟩ 1 1 (fun _ => 0)
    (fun _ => 0) ⟨1, 1, 0, 0, "jpg"⟩
  have hunder := C5_amended_fixed_steps 50 1 10 20 ⟨1, 1⟩ 1 1 (fun _ => 0)
    (fun _ => 0) ⟨1, 1, 0, 0, "jpg"⟩
  exact ⟨hover.1 (by norm_num),
    hunder.2.1 (by norm_num) (by norm_num),
    hunder.2.2.1 (by norm_num)⟩

/-- C2 counterexample: with window [20, 50] and an encoder that always emits
51204 bytes, the final returned buffer's exact size is 51204/1024 =
50.00390625 KB — strictly above maxKb — yet the server reports valid = true,
because `valid` is computed from the `toFixed(2)`-rounded size (50.00), not
from the exact byte count divided by 1024. -/
theorem C2_valid_rounding_counterexample :
    (processImage ⟨1000, 1000⟩ 200 230 (fun _ => 51204) 20 50).1 =
      some ⟨200, 230, 51204⟩ ∧
    (serverBody ⟨200, 230, 20, 50, "jpg"⟩ ⟨200, 230, 51204⟩).valid = true ∧
    (50 : ℚ) < (51204 : ℚ) / 1024 := by
  refine ⟨?_, ?_, by norm_num⟩
  · norm_num [processImage, serverLoopAux, encodeRaster, resizeFill, serverClamp,
      serverAdjust, max_def, min_def]
  · norm_num [serverBody, toFixed2]

/-- C2 (amended): `valid` is reported as data, never thrown — the endpoint
answers 200 with the body whenever processing succeeds — and it holds iff the
reported size is inside the window, where the reported size is the exact
`len/1024` in the client path but the `toFixed(2)`-rounded `len/1024` in the
server path. -/
theorem C2_amended_valid_semantics (rules : Rules) (buf : Buffer) (img : Raster)
    (encC : ℚ → ℕ) (res : ClientResult) (f : String)
    (preset ruleText : Option String) (proc : Rules → Except ProcErr Buffer) :
    ((serverBody rules buf).valid = true ↔
      (toFixed2 ((buf.len : ℚ) / 1024) ≤ (rules.maxKb : ℚ) ∧
        (rules.minKb : ℚ) ≤ toFixed2 ((buf.len : ℚ) / 1024))) ∧
    ((processClientSide img rules encC).1 = some res →
      (res.valid = true ↔
        (res.sizeKb ≤ (rules.maxKb : ℚ) ∧ (rules.minKb : ℚ) ≤ res.sizeKb))) ∧
    (deriveRules preset ruleText = .ok rules → proc rules = .ok buf →
      handleProcess (some f) preset ruleText proc =
        ⟨200, some (serverBody rules buf), true⟩) := by
  refine ⟨?_, ?_, ?_⟩
  · simp only [serverBody, Bool.and_eq_true, decide_eq_true_eq, ge_iff_le]
  · intro hr
    simp only [processClientSide, Option.map_eq_some'] at hr
    rcases hr with ⟨blob, _, hblob⟩
    subst hblob
    simp only [Bool.and_eq_true, decide_eq_true_eq, ge_iff_le]
  · intro hd hp
    unfold handleProcess
    simp only [hd, hp]

/-- Witness for C2 (amended): a successful request for the photo preset with
a 30720-byte (30.00 KB) result answers 200 with valid = true, and a client
result of exactly 15 KB against window [10, 20] is valid. -/
theorem C2_amended_valid_semantics_witness :
    handleProcess (some "up.jpg") (some "photo") none
      (fun _ => .ok ⟨200, 230, 30720⟩) =
      ⟨200, some (serverBody ⟨200, 230, 20, 50, "jpg"⟩ ⟨200, 230, 30720⟩), true⟩ ∧
    (⟨140, 60, 15, "jpg".toUpper,
        decide ((15 : ℚ) ≤ (20 : ℚ)) && decide ((15 : ℚ) ≥ (10 : ℚ))⟩ :
      ClientResult).valid = true := by
  constructor
  · exact (C2_amended_valid_semantics ⟨200, 230, 20, 50, "jpg"⟩ ⟨200, 230, 30720⟩
      ⟨9, 9⟩ (fun _ => 0) ⟨0, 0, 0, "", false⟩ "up.jpg" (some "photo") none
      (fun _ => .ok ⟨200, 230, 30720⟩)).2.2
      rfl rfl
  · exact (C2_amended_valid_semantics ⟨140, 60, 10, 20, "jpg"⟩ ⟨0, 0, 0⟩
      ⟨9, 9⟩ (fun _ => 15360)
      ⟨140, 60, 15, "jpg".toUpper,
        decide ((15 : ℚ) ≤ (20 : ℚ)) && decide ((15 : ℚ) ≥ (10 : ℚ))⟩
      "f" none none (fun _ => .error .processFailed)).2.1
      (by norm_num [processClientSide, clientLoopAux, encodeRaster, resizeFill])
      |>.mpr (by norm_num)

/-- C6 counterexample: for the same spec (window [10, 20] KB) and
proportionally scaled encoders (the client encoder is the server encoder
precomposed with ×100), the server path lands exactly on quality 95 and
reports valid, while the client path — stepping by 0.02 from 0.92 — skips
0.95, exhausts its 15 attempts and reports invalid: the two paths do not
produce results with identical Spec semantics. -/
theorem C6_paths_differ_counterexample :
    ((processImage ⟨1000, 1000⟩ 140 60
        (fun q => if q = 95 then 15360 else 1024) 10 20).1.map
      fun b => (serverBody ⟨140, 60, 10, 20, "jpg"⟩ b).valid) = some true ∧
    ((processClientSide ⟨1000, 1000⟩ ⟨140, 60, 10, 20, "jpg"⟩
        (fun q => if (100 : ℚ) * q = 95 then 15360 else 1024)).1.map
      ClientResult.valid) = some false := by
  constructor
  · norm_num [processImage, serverLoopAux, encodeRaster, resizeFill, serverClamp,
      serverAdjust, serverBody, toFixed2, max_def, min_def]
  · norm_num [processClientSide, clientLoopAux, encodeRaster, resizeFill,
      clientClamp, clientAdjust, max_def, min_def]

/-- C6 (amended): the two paths are instances of one shared quality-search
skeleton (`fitLoop`): same window test, and — relative to each scale — the
same initial quality (92%), the same decrease step (5%) and the same clamp
range ([10%, 100%]); but the instances differ in the increase step (3% of
scale server-side versus 2% client-side) and in the attempt budget (20 versus
15), so their outcomes need not agree. -/
theorem C6_amended_shared_skeleton (img : Raster) (w h : ℕ) (enc encC : ℚ → ℕ)
    (minKb maxKb : ℚ) (rules : Rules) :
    ((processImage img w h enc minKb maxKb).1).map Buffer.len =
      (fitLoop serverParams enc minKb maxKb).1 ∧
    encodeTrace (processImage img w h enc minKb maxKb).2 =
      (fitLoop serverParams enc minKb maxKb).2 ∧
    ((processClientSide img rules encC).1).map ClientResult.sizeKb =
      ((fitLoop clientParams encC (rules.minKb : ℚ) (rules.maxKb : ℚ)).1).map
        (fun l : ℕ => (l : ℚ) / 1024) ∧
    encodeTrace (processClientSide img rules encC).2 =
      (fitLoop clientParams encC (rules.minKb : ℚ) (rules.maxKb : ℚ)).2 ∧
    serverParams.qInit / serverParams.qMax = clientParams.qInit / clientParams.qMax ∧
    serverParams.stepDown / serverParams.qMax = clientParams.stepDown / clientParams.qMax ∧
    serverParams.qMin / serverParams.qMax = clientParams.qMin / clientParams.qMax ∧
    serverParams.stepUp / serverParams.qMax = 3 / 100 ∧
    clientParams.stepUp / clientParams.qMax = 2 / 100 ∧
    serverParams.budget = 20 ∧ clientParams.budget = 15 := by
  have hs := serverLoopAux_fit img w h enc minKb maxKb 20 92 none
  have hc := clientLoopAux_fit (resizeFill img rules.width rules.height) encC
    (rules.minKb : ℚ) (rules.maxKb : ℚ) 15 0.92 none
  simp only [Option.map_none'] at hs hc
  refine ⟨hs.1, hs.2, ?_, ?_, ?_, ?_, ?_, ?_, ?_, rfl, rfl⟩
  · simp only [processClientSide, Option.map_map]
    show _ = Option.map (fun l : ℕ => (l : ℚ) / 1024)
      (fitLoopAux clientParams encC (rules.minKb : ℚ) (rules.maxKb : ℚ)
        15 0.92 none).1
    rw [← hc.1, Option.map_map]
    rfl
  · simp only [processClientSide, encodeTrace_resize]
    show _ = (fitLoopAux clientParams encC (rules.minKb : ℚ) (rules.maxKb : ℚ)
      15 0.92 none).2
    exact hc.2
  · norm_num [serverParams, clientParams]
  · norm_num [serverParams, clientParams]
  · norm_num [serverParams, clientParams]
  · norm_num [serverParams, clientParams]
  · norm_num [serverParams, clientParams]

/-- C7: preset derivation matches the fixed four-entry table exactly — each
of photo, signature, thumb, declaration maps to its literal table values in
both the server and client tables — and any other preset id (other than the
`custom` sentinel, which switches to free-text parsing) finds no table entry,
so the server request fails with the unknown-preset error instead of
producing any Spec. -/
theorem C7_preset_table_exact (s : String) (rt : Option String) :
    presets "photo" = some ⟨200, 230, 20, 50, "jpg"⟩ ∧
    presets "signature" = some ⟨140, 60, 10, 20, "jpg"⟩ ∧
    presets "thumb" = some ⟨140, 60, 20, 50, "jpg"⟩ ∧
    presets "declaration" = some ⟨800, 300, 50, 100, "jpg"⟩ ∧
    clientPRESETS "photo" = some ⟨200, 230, 20, 50, "jpg"⟩ ∧
    clientPRESETS "signature" = some ⟨140, 60, 10, 20, "jpg"⟩ ∧
    clientPRESETS "thumb" = some ⟨140, 60, 20, 50, "jpg"⟩ ∧
    clientPRESETS "declaration" = some ⟨800, 300, 50, 100, "jpg"⟩ ∧
    (s ≠ "photo" → s ≠ "signature" → s ≠ "thumb" → s ≠ "declaration" →
      presets s = none) ∧
    (s ≠ "photo" → s ≠ "signature" → s ≠ "thumb" → s ≠ "declaration" →
      s ≠ "" → s ≠ "custom" →
      deriveRules (some s) rt = .error .unknownPreset) := by
  refine ⟨by decide, by decide, by decide, by decide, by decide, by decide,
    by decide, by decide, ?_, ?_⟩
  · intro h1 h2 h3 h4
    simp [presets, h1, h2, h3, h4]
  · intro h1 h2 h3 h4 h5 h6
    have hnone : presets s = none := by simp [presets, h1, h2, h3, h4]
    simp [deriveRules, hnone, h5, h6]

/-- Witness for C7: the preset id passport is not in the table and makes the
request derivation fail with the unknown-preset error. -/
theorem C7_preset_table_exact_witness :
    presets "passport" = none ∧
    deriveRules (some "passport") none = .error .unknownPreset := by
  have h := C7_preset_table_exact "passport" none
  exact ⟨h.2.2.2.2.2.2.2.2.1 (by decide) (by decide) (by decide) (by decide),
    h.2.2.2.2.2.2.2.2.2 (by decide) (by decide) (by decide) (by decide)
      (by decide) (by decide)⟩

/-- C8: free-text rule parsing applies three independent pattern searches and
never fails: every unmatched field is silently filled with the defaults
width 200, height 230, minKb 20, maxKb 50, format jpg; the example text
parses to exactly those values, in both the server and client parsers. -/
theorem C8_parse_lenient_defaults (s : String) :
    parseRuleText "200x230, 20-50kb, jpg" = ⟨200, 230, 20, 50, "jpg"⟩ ∧
    parseCustomRule "200x230, 20-50kb, jpg" = ⟨200, 230, 20, 50, "jpg"⟩ ∧
    (searchDims s.data = none →
      (parseRuleText s).width = 200 ∧ (parseRuleText s).height = 230 ∧
      (parseCustomRule s).width = 200 ∧ (parseCustomRule s).height = 230) ∧
    (searchSize isDashSrv s.data = none →
      (parseRuleText s).minKb = 20 ∧ (parseRuleText s).maxKb = 50) ∧
    (searchSize isDashCli s.data = none →
      (parseCustomRule s).minKb = 20 ∧ (parseCustomRule s).maxKb = 50) ∧
    (fmtSearch s.data = none →
      (parseRuleText s).format = "jpg" ∧ (parseCustomRule s).format = "jpg") := by
  refine ⟨by decide, by decide, ?_, ?_, ?_, ?_⟩
  · intro hd
    simp [parseRuleText, parseCustomRule, hd]
  · intro hs
    simp [parseRuleText, hs]
  · intro hs
    simp [parseCustomRule, hs]
  · intro hf
    simp [parseRuleText, parseCustomRule, hf]

/-- Witness for C8: text with no recognizable tokens yields the full default
spec. -/
theorem C8_parse_lenient_defaults_witness :
    parseRuleText "hello world" = ⟨200, 230, 20, 50, "jpg"⟩ := by
  have h := C8_parse_lenient_defaults "hello world"
  have hw := h.2.2.1 (by decide)
  have hs := h.2.2.2.1 (by decide)
  have hf := h.2.2.2.2.2 (by decide)
  have heta : parseRuleText "hello world" =
      ⟨(parseRuleText "hello world").width, (parseRuleText "hello world").height,
        (parseRuleText "hello world").minKb, (parseRuleText "hello world").maxKb,
        (parseRuleText "hello world").format⟩ := rfl
  rw [heta, hw.1, hw.2.1, hs.1, hs.2, hf.1]

/-- C10: when the size-range pattern matches with its first number greater
than its second, both parsers pass the values through unchanged — the spec
gets minKb > maxKb with no swap, no rejection and no error. -/
theorem C10_minmax_passthrough (s : String) (a b : ℕ) :
    parseRuleText "50-20kb" = ⟨200, 230, 50, 20, "jpg"⟩ ∧
    parseCustomRule "50-20kb" = ⟨200, 230, 50, 20, "jpg"⟩ ∧
    (searchSize isDashSrv s.data = some (a, b) →
      (parseRuleText s).minKb = a ∧ (parseRuleText s).maxKb = b) ∧
    (searchSize isDashCli s.data = some (a, b) →
      (parseCustomRule s).minKb = a ∧ (parseCustomRule s).maxKb = b) := by
  refine ⟨by decide, by decide, ?_, ?_⟩
  · intro hs
    simp [parseRuleText, hs]
  · intro hs
    simp [parseCustomRule, hs]

/-- Witness for C10: the text 50-20kb produces minKb = 50 > maxKb = 20 in
both parsers. -/
theorem C10_minmax_passthrough_witness :
    (parseRuleText "50-20kb").minKb = 50 ∧ (parseRuleText "50-20kb").maxKb = 20 ∧
    (parseCustomRule "50-20kb").minKb = 50 ∧
    (parseCustomRule "50-20kb").maxKb = 20 := by
  have h := C10_minmax_passthrough "50-20kb" 50 20
  have h1 := h.2.2.1 (by decide)
  have h2 := h.2.2.2 (by decide)
  exact ⟨h1.1, h1.2, h2.1, h2.2⟩
